import Mathlib

/-!
Shallow embedding of the authentication/sync core of this repository:
the anonymous authentication client (`pkg/services/anonymous/anonimpl`),
the organization role-sync hook (`OrgSync.SyncOrgRolesHook`), the JWT
claims-token role extraction (`JWT.extractRolesAndAdmin`) and the
`parseOrgMapperConfig` configuration parser (`pkg/setting/setting_jwt.go`).

External collaborators (org service, user service, access control, device
store, regexp engine) are modelled as response oracles passed in explicitly;
Go maps are modelled as association lists carrying one iteration order, with
zero-value (`""`) lookup semantics; Go strings that undergo index-level
surgery are modelled as `List Char`.
-/

namespace Grafana

/-- An organization record (`org.Org`), as used by the clients and hooks:
only the `ID` and `Name` fields are consumed by the embedded code. -/
structure Org where
  id : Int
  name : String
deriving DecidableEq, Repr

/-- One membership entry returned by `orgService.GetUserOrgList`
(`org.UserOrgDTO`): the sync hook reads its `OrgID` and `Role`. -/
structure OrgUser where
  orgID : Int
  role : String
deriving DecidableEq, Repr

/-- Go `map[string]RoleType` lookup with zero-value semantics: a missing key
yields the empty string, exactly like `id.OrgRoles[name]` in Go. The map is
modelled as an association list in one fixed iteration order. -/
def lookupRole {α : Type} [DecidableEq α] : List (α × String) → α → String
  | [], _ => ""
  | p :: rest, n => if p.1 = n then p.2 else lookupRole rest n

/-- Go `_, ok := m[k]` comma-ok presence test on the association-list model. -/
def hasKey {α : Type} [DecidableEq α] : List (α × String) → α → Bool
  | [], _ => false
  | p :: rest, n => if p.1 = n then true else hasKey rest n

/-- Go map assignment `m[k] = v` on the association-list model: overwrite the
existing entries for `k`, or append a new entry. -/
def setAssoc {α β : Type} [DecidableEq α] (res : List (α × β)) (k : α) (v : β) :
    List (α × β) :=
  if res.any (fun p => p.1 = k) then
    res.map (fun p => if p.1 = k then (k, v) else p)
  else res ++ [(k, v)]

/-! ### Anonymous client (`anonimpl.Anonymous`, src/unnamed/part_001) -/

/-- The relevant configuration of the anonymous client: `cfg.AnonymousOrgName`
and `cfg.AnonymousOrgRole`. -/
structure AnonCfg where
  anonymousOrgName : String
  anonymousOrgRole : String

/-- Result of `anonDeviceService.TagDevice`: success, the recognized
`anonstore.ErrDeviceLimitReached` condition, or any other error. -/
inductive TagRes
  | ok
  | deviceLimitReached
  | fail (e : String)
deriving DecidableEq, Repr

/-- Response oracle for the services the anonymous client calls:
`orgService.GetByName` and `anonDeviceService.TagDevice`. -/
structure AnonEnv where
  getByName : String → Except String Org
  tagDevice : TagRes

/-- Error outcomes of the anonymous client: a propagated org-lookup error, the
propagated device-limit error, and the client's own `errInvalidOrg` /
`errInvalidID` conditions. -/
inductive AnonError
  | orgLookup (e : String)
  | deviceLimit
  | invalidOrg
  | invalidID
deriving DecidableEq, Repr

/-- The `authn.Identity` fields populated by `newAnonymousIdentity`. -/
structure AnonIdentity where
  id : String
  orgID : Int
  orgName : String
  orgRoles : List (String × String)
  syncPermissions : Bool
deriving DecidableEq, Repr

/-- The fixed `authn.AnonymousNamespaceID` constant, modelled as its string
form (namespace `anonymous` with identifier `0`). -/
def anonymousNamespaceID : String := "anonymous:0"

/-- `Anonymous.newAnonymousIdentity` (src/unnamed/part_001:110-118). -/
def newAnonymousIdentity (cfg : AnonCfg) (o : Org) : AnonIdentity :=
  { id := anonymousNamespaceID
    orgID := o.id
    orgName := o.name
    orgRoles := [(o.name, cfg.anonymousOrgRole)]
    syncPermissions := true }

/-- `Anonymous.Authenticate` (src/unnamed/part_001:38-61): look up the
configured organization by name (propagating a lookup failure), tag the
device (fatal only on the device-limit condition, any other tagging failure
is logged and ignored), and produce the anonymous identity. -/
def authenticate (cfg : AnonCfg) (env : AnonEnv) : Except AnonError AnonIdentity :=
  match env.getByName cfg.anonymousOrgName with
  | .error e => .error (.orgLookup e)
  | .ok o =>
    match env.tagDevice with
    | .deviceLimitReached => .error .deviceLimit
    | _ => .ok (newAnonymousIdentity cfg o)

/-- `Anonymous.ResolveIdentity` (src/unnamed/part_001:76-92): look up the
configured organization, reject an org-id mismatch with `errInvalidOrg`, a
namespace-id mismatch with `errInvalidID`, and otherwise produce the same
anonymous identity as `Authenticate`. -/
def resolveIdentity (cfg : AnonCfg) (env : AnonEnv) (orgID : Int)
    (namespaceID : String) : Except AnonError AnonIdentity :=
  match env.getByName cfg.anonymousOrgName with
  | .error e => .error (.orgLookup e)
  | .ok o =>
    if o.id ≠ orgID then .error .invalidOrg
    else if namespaceID ≠ anonymousNamespaceID then .error .invalidID
    else .ok (newAnonymousIdentity cfg o)

/-! ### JWT claims-token role extraction (`JWT.extractRolesAndAdmin`,
src/unnamed/part_002:657-707) -/

/-- The inner `SubexpNames` loop of the regex branch: `groups` is the list of
(subexpression name, submatched text) pairs for the match's subexpressions of
index `i ≠ 0`; every group named `org` whose captured organization is not yet
resolved (zero-value lookup) is assigned the pattern's target role. -/
def applyRegexMatch (res : List (String × String)) (grafanaRole : String)
    (groups : List (String × String)) : List (String × String) :=
  groups.foldl
    (fun r g =>
      if g.1 = "org" ∧ lookupRole r g.2 = "" then setAssoc r g.2 grafanaRole
      else r)
    res

/-- The regex branch of `extractRolesAndAdmin` (src/unnamed/part_002:670-686).
`mapper` is `cfg.JWTAuth.RegexOrgRoleMapper` in one iteration order of the Go
map; `matchFn pat s` abstracts `regexp.MustCompile(pat).FindStringSubmatch(s)`
together with `SubexpNames` (`none` when there is no match, otherwise the
named-group list); `rolesSlice` is the asserted role strings. -/
def regexOrgRoleExtract (mapper : List (String × String))
    (matchFn : String → String → Option (List (String × String)))
    (rolesSlice : List String) : List (String × String) :=
  rolesSlice.foldl
    (fun res jwtRole =>
      mapper.foldl
        (fun r pat =>
          match matchFn pat.1 jwtRole with
          | none => r
          | some groups => applyRegexMatch r pat.2 groups)
        res)
    []

/-- Go `strings.Split(s, sep)` for a single-character separator, on the
`List Char` model of Go strings. -/
def splitOnChar (sep : Char) (s : List Char) : List (List Char) :=
  match s with
  | [] => [[]]
  | c :: rest =>
    match splitOnChar sep rest with
    | [] => [[]]
    | t :: ts => if c = sep then [] :: t :: ts else (c :: t) :: ts

/-- The static branch of `extractRolesAndAdmin` (src/unnamed/part_002:688-701):
split each asserted role string on `:`; strings that do not split into exactly
three parts are skipped; otherwise a third part `admin` maps the middle part to
`Editor` and a third part `viewer` maps it to `Viewer`, anything else is
skipped. -/
def staticOrgRoleExtract (rolesSlice : List (List Char)) :
    List (List Char × String) :=
  rolesSlice.foldl
    (fun res role =>
      match splitOnChar ':' role with
      | [_, o, r] =>
        if r = "admin".toList then setAssoc res o "Editor"
        else if r = "viewer".toList then setAssoc res o "Viewer"
        else res
      | _ => res)
    []

/-- The per-string contribution of the static branch as the spec describes it:
exactly the strings splitting into exactly three parts whose final part is
`admin` or `viewer` contribute, mapping their middle part to `Editor`
respectively `Viewer`. Used to characterize `staticOrgRoleExtract`. -/
def staticEntry (role : List Char) : Option (List Char × String) :=
  match splitOnChar ':' role with
  | [_, o, r] =>
    if r = "admin".toList then some (o, "Editor")
    else if r = "viewer".toList then some (o, "Viewer")
    else none
  | _ => none

/-! ### `parseOrgMapperConfig` (src/pkg/setting/setting_jwt.go:73-88) -/

/-- Helper for `fields`: accumulate the current token (reversed) while
scanning. Models Go `strings.Fields`: maximal runs of non-whitespace. -/
def fieldsAux (acc : List Char) (s : List Char) : List (List Char) :=
  match s with
  | [] => if acc.isEmpty then [] else [acc.reverse]
  | c :: rest =>
    if c.isWhitespace then
      if acc.isEmpty then fieldsAux [] rest
      else acc.reverse :: fieldsAux [] rest
    else fieldsAux (c :: acc) rest

/-- Go `strings.Fields`: split around runs of whitespace, producing no empty
tokens. -/
def fields (s : List Char) : List (List Char) := fieldsAux [] s

/-- Go `strings.LastIndex(s, ":")` for a single-character needle: the index of
the last occurrence, or `none` for Go's `-1`. -/
def lastIndexOf (c : Char) : List Char → Option Nat
  | [] => none
  | a :: rest =>
    match lastIndexOf c rest with
    | some i => some (i + 1)
    | none => if a = c then some 0 else none

/-- The token loop of `parseOrgMapperConfig`: for each token, slice around the
last `:`. A token with no `:` makes Go compute `split[:-1+0]`-style bounds,
i.e. `split[:i]` with `i = -1`, which panics; that is modelled as `none`. -/
def parseOrgMapperLoop (tokens : List (List Char))
    (res : List (List Char × List Char)) :
    Option (List (List Char × List Char)) :=
  match tokens with
  | [] => some res
  | t :: ts =>
    match lastIndexOf ':' t with
    | none => none
    | some i => parseOrgMapperLoop ts (setAssoc res (t.take i) (t.drop (i + 1)))

/-- `parseOrgMapperConfig` (src/pkg/setting/setting_jwt.go:73-88): empty input
yields the empty map, otherwise whitespace-separated tokens are each split at
their last `:` into a pattern ↦ role entry; `none` models the slice-bounds
panic on a token without `:`. -/
def parseOrgMapperConfig (input : List Char) :
    Option (List (List Char × List Char)) :=
  if input.isEmpty then some []
  else parseOrgMapperLoop (fields input) []

/-! ### Organization role sync (`OrgSync.SyncOrgRolesHook`,
src/unnamed/part_002:285-394) -/

/-- Result of `orgService.AddOrgUser`: success, the recognized
`org.ErrOrgNotFound` condition, or any other error. -/
inductive AddRes
  | ok
  | orgNotFound
  | fail (e : String)
deriving DecidableEq, Repr

/-- Result of `orgService.RemoveOrgUser`: success, the recognized
`org.ErrLastOrgAdmin` condition, or any other error. -/
inductive RemoveRes
  | ok
  | lastOrgAdmin
  | fail (e : String)
deriving DecidableEq, Repr

/-- Response oracle for the services called by `SyncOrgRolesHook`, for the one
user the hook is syncing. `getByID` returns `none` when the call errors or
yields `nil` (the code discards the error with `orgb, _ := ...`); `getByName`
returns `none` when `orga == nil || e != nil`; mutation responses are `none` /
`ok` on success and carry the service error otherwise. -/
structure SyncEnv where
  getUserOrgList : Except String (List OrgUser)
  getByID : Int → Option Org
  getByName : String → Option Org
  updateOrgUser : Int → Option String
  addOrgUser : Int → AddRes
  removeOrgUser : Int → RemoveRes
  userUpdate : Int → Option String

/-- The fields of `authn.Identity` consumed by `SyncOrgRolesHook`:
`ClientParams.SyncOrgRoles`, the `ID.IsNamespace(NamespaceUser)` test, the
`ID.ParseInt` result, and `OrgRoles` (association list in one iteration order
of the Go map), `OrgName`, `OrgID`. -/
structure SyncIdentity where
  syncOrgRoles : Bool
  isUserNamespace : Bool
  parsedID : Option Int
  orgRoles : List (String × String)
  orgName : String
  orgID : Int

/-- One service call performed by the hook, recorded in order, including
calls that the service answers with an error. -/
inductive Mutation
  | updateOrgUser (orgID : Int) (role : String)
  | addOrgUser (orgID : Int) (role : String)
  | removeOrgUser (orgID : Int)
  | deleteUserPermissions (orgID : Int)
  | userUpdate (orgID : Int)
deriving DecidableEq, Repr

/-- Result of the "update existing org roles" loop: a nil dereference of the
discarded-error `GetByID` result, an early `return err`, or completion with
the handled ids, the removal ids, the membership state and the call trace. -/
inductive P1Out
  | panicked
  | err (e : String) (ms : List OrgUser) (tr : List Mutation)
  | ok (handled : List Int) (del : List Int) (ms : List OrgUser) (tr : List Mutation)
deriving DecidableEq, Repr

/-- Result of the "add any new org roles" loop. -/
inductive P2Out
  | err (e : String) (ms : List OrgUser) (tr : List Mutation)
  | ok (orgIDs : List Int) (ms : List OrgUser) (tr : List Mutation)
deriving DecidableEq, Repr

/-- Result of the "delete any removed org roles" loop. -/
inductive P3Out
  | err (e : String) (ms : List OrgUser) (tr : List Mutation)
  | ok (ms : List OrgUser) (tr : List Mutation)
deriving DecidableEq, Repr

/-- Outcome of the whole hook: a nil-dereference panic, an early `return nil`
before reconciliation started (guards failed, empty `OrgRoles`, or the
membership fetch failed), or completion carrying the hook's returned error,
the final membership state, the call trace and the final `Identity.OrgID`. -/
inductive HookOutcome
  | panicked
  | noop
  | done (err : Option String) (ms : List OrgUser) (tr : List Mutation) (orgID : Int)
deriving DecidableEq, Repr

/-- The `// update existing org roles` loop (src/unnamed/part_002:321-337):
record each membership as handled, look its organization up by id (a failed
lookup is dereferenced as `orgb.Name` — a nil dereference), mark memberships
absent from the asserted roles for removal, update those present with a
different role (propagating an update error), and leave the rest alone. -/
def updateExistingLoop (env : SyncEnv) (orgRoles : List (String × String)) :
    List OrgUser → List Int → List Int → List OrgUser → List Mutation → P1Out
  | [], handled, del, ms, tr => .ok handled del ms tr
  | orga :: rest, handled, del, ms, tr =>
    match env.getByID orga.orgID with
    | none => .panicked
    | some orgb =>
      let extRole := lookupRole orgRoles orgb.name
      if extRole = "" then
        updateExistingLoop env orgRoles rest (handled ++ [orga.orgID])
          (del ++ [orga.orgID]) ms tr
      else if extRole ≠ orga.role then
        match env.updateOrgUser orga.orgID with
        | some e => .err e ms (tr ++ [.updateOrgUser orga.orgID extRole])
        | none =>
          updateExistingLoop env orgRoles rest (handled ++ [orga.orgID]) del
            (ms.map fun m =>
              if m.orgID = orga.orgID then { m with role := extRole } else m)
            (tr ++ [.updateOrgUser orga.orgID extRole])
      else
        updateExistingLoop env orgRoles rest (handled ++ [orga.orgID]) del ms tr

/-- The `// add any new org roles` loop (src/unnamed/part_002:339-360):
resolve each asserted organization by name (silently skipping unresolved
names), collect every resolved id into `orgIDs`, and add a membership for
those not already handled — absorbing `ErrOrgNotFound` and propagating any
other add error. -/
def addNewLoop (env : SyncEnv) :
    List (String × String) → List Int → List Int → List OrgUser → List Mutation → P2Out
  | [], _, orgIDs, ms, tr => .ok orgIDs ms tr
  | (orgName, orgRole) :: rest, handled, orgIDs, ms, tr =>
    match env.getByName orgName with
    | none => addNewLoop env rest handled orgIDs ms tr
    | some orga =>
      if handled.contains orga.id then
        addNewLoop env rest handled (orgIDs ++ [orga.id]) ms tr
      else
        match env.addOrgUser orga.id with
        | .fail e => .err e ms (tr ++ [.addOrgUser orga.id orgRole])
        | .orgNotFound =>
          addNewLoop env rest handled (orgIDs ++ [orga.id]) ms
            (tr ++ [.addOrgUser orga.id orgRole])
        | .ok =>
          addNewLoop env rest handled (orgIDs ++ [orga.id])
            (ms ++ [⟨orga.id, orgRole⟩]) (tr ++ [.addOrgUser orga.id orgRole])

/-- The `// delete any removed org roles` loop (src/unnamed/part_002:362-378):
remove each marked membership — skipping (and retaining) a removal rejected
with `ErrLastOrgAdmin`, propagating any other removal error — and after a
successful removal best-effort delete the user's cached permissions for that
organization. -/
def removeLoop (env : SyncEnv) :
    List Int → List OrgUser → List Mutation → P3Out
  | [], ms, tr => .ok ms tr
  | orgID :: rest, ms, tr =>
    match env.removeOrgUser orgID with
    | .lastOrgAdmin => removeLoop env rest ms (tr ++ [.removeOrgUser orgID])
    | .fail e => .err e ms (tr ++ [.removeOrgUser orgID])
    | .ok =>
      removeLoop env rest (ms.filter fun m => m.orgID ≠ orgID)
        (tr ++ [.removeOrgUser orgID, .deleteUserPermissions orgID])

/-- Insert into an ascending list, modelling one step of
`sort.Slice(orgIDs, func(i, j int) bool { return orgIDs[i] < orgIDs[j] })`. -/
def insertSorted (x : Int) : List Int → List Int
  | [] => [x]
  | y :: ys => if x ≤ y then x :: y :: ys else y :: insertSorted x ys

/-- Ascending sort of the collected organization ids
(src/unnamed/part_002:381). -/
def sortAsc (l : List Int) : List Int := l.foldr insertSorted []

/-- `OrgSync.SyncOrgRolesHook` (src/unnamed/part_002:285-394): guard on
`SyncOrgRoles`, the user namespace, a parseable id and non-empty asserted
roles; fetch the memberships (a fetch failure returns `nil`); run the update,
add and delete loops; and if the asserted roles do not contain the active
organization name, set the identity's `OrgID` to the smallest collected
organization id and persist it via `userService.Update`, returning that
update's result. -/
def syncOrgRolesHook (env : SyncEnv) (id : SyncIdentity) : HookOutcome :=
  if !id.syncOrgRoles then .noop
  else if !id.isUserNamespace then .noop
  else
    match id.parsedID with
    | none => .noop
    | some _userID =>
      if id.orgRoles.isEmpty then .noop
      else
        match env.getUserOrgList with
        | .error _ => .noop
        | .ok result =>
          match updateExistingLoop env id.orgRoles result [] [] result [] with
          | .panicked => .panicked
          | .err e ms tr => .done (some e) ms tr id.orgID
          | .ok handled del ms tr =>
            match addNewLoop env id.orgRoles handled [] ms tr with
            | .err e ms' tr' => .done (some e) ms' tr' id.orgID
            | .ok orgIDs ms' tr' =>
              match removeLoop env del ms' tr' with
              | .err e ms'' tr'' => .done (some e) ms'' tr'' id.orgID
              | .ok ms'' tr'' =>
                if !(hasKey id.orgRoles id.orgName) then
                  match sortAsc orgIDs with
                  | first :: _ =>
                    .done (env.userUpdate first) ms''
                      (tr'' ++ [.userUpdate first]) first
                  | [] => .done none ms'' tr'' id.orgID
                else .done none ms'' tr'' id.orgID

/-- The error the hook returned (`none` on the `return nil` paths). -/
def HookOutcome.errOf : HookOutcome → Option String
  | .done e _ _ _ => e
  | _ => none

/-- The final membership state, available when reconciliation ran. -/
def HookOutcome.msOf : HookOutcome → Option (List OrgUser)
  | .done _ ms _ _ => some ms
  | _ => none

/-- The service calls performed by the hook, in order. -/
def HookOutcome.traceOf : HookOutcome → List Mutation
  | .done _ _ tr _ => tr
  | _ => []

/-- The final in-memory `Identity.OrgID`, available when reconciliation ran. -/
def HookOutcome.orgIDOf : HookOutcome → Option Int
  | .done _ _ _ o => some o
  | _ => none

/-- The organization ids the asserted-roles pass resolves by name: exactly the
ids collected into `orgIDs` by the add loop. -/
def resolvedOrgIDs (env : SyncEnv) (roles : List (String × String)) : List Int :=
  roles.filterMap fun p => (env.getByName p.1).map Org.id

/-! ### Concrete service environments used to instantiate the theorems -/

/-- A directory with one organization `Main` (id 3) and a device store whose
tagging fails with an ordinary (non-quota) error. -/
def anonEnvW : AnonEnv :=
  { getByName := fun n => if n = "Main" then .ok ⟨3, "Main"⟩ else .error "not found"
    tagDevice := .fail "store unavailable" }

/-- Anonymous access configured against organization `Main` as `Viewer`. -/
def anonCfgW : AnonCfg :=
  { anonymousOrgName := "Main", anonymousOrgRole := "Viewer" }

/-- A benign sync-service oracle: two organizations `A` (id 1) and `B`
(id 2), every mutation succeeding. -/
def syncEnvW : SyncEnv :=
  { getUserOrgList := .ok [⟨1, "Viewer"⟩, ⟨2, "Editor"⟩]
    getByID := fun i =>
      if i = 1 then some ⟨1, "A"⟩ else if i = 2 then some ⟨2, "B"⟩ else none
    getByName := fun n =>
      if n = "A" then some ⟨1, "A"⟩ else if n = "B" then some ⟨2, "B"⟩ else none
    updateOrgUser := fun _ => none
    addOrgUser := fun _ => .ok
    removeOrgUser := fun _ => .ok
    userUpdate := fun _ => none }

/-- An abstract matcher realizing the two Go regexes `(?P<org>X)r` (under the
pattern key `p1`) and `(?P<org>X).*` (under `p2`): both match the role string
`Xr` and capture the organization `X` in the group named `org`. -/
def regexMatchW (pat s : String) : Option (List (String × String)) :=
  if s = "Xr" ∧ (pat = "p1" ∨ pat = "p2") then some [("org", "X")] else none

/-- A user identity whose authenticating mechanism asserted no roles. -/
def syncIdEmptyW : SyncIdentity :=
  { syncOrgRoles := true
    isUserNamespace := true
    parsedID := some 7
    orgRoles := []
    orgName := "A"
    orgID := 1 }

/-- A user identity asserting `{A: Editor}` with active organization `Z`. -/
def syncIdC1 : SyncIdentity :=
  { syncOrgRoles := true
    isUserNamespace := true
    parsedID := some 7
    orgRoles := [("A", "Editor")]
    orgName := "Z"
    orgID := 2 }

/-- A service oracle for a user with no memberships where organization `X`
resolves by name (id 1) but the membership add is answered with the
`ErrOrgNotFound` condition. -/
def syncEnvAddNF : SyncEnv :=
  { getUserOrgList := .ok []
    getByID := fun _ => none
    getByName := fun n => if n = "X" then some ⟨1, "X"⟩ else none
    updateOrgUser := fun _ => none
    addOrgUser := fun _ => .orgNotFound
    removeOrgUser := fun _ => .ok
    userUpdate := fun _ => none }

/-- A user identity asserting `{X: Editor}` whose active organization is `X`. -/
def syncIdAddNF : SyncIdentity :=
  { syncOrgRoles := true
    isUserNamespace := true
    parsedID := some 7
    orgRoles := [("X", "Editor")]
    orgName := "X"
    orgID := 5 }

/-- A service oracle where the asserted organizations `A` and `B` resolve to
ids 5 and 3 and every mutation succeeds, for a user with no memberships. -/
def syncEnvC2 : SyncEnv :=
  { getUserOrgList := .ok []
    getByID := fun _ => none
    getByName := fun n =>
      if n = "A" then some ⟨5, "A"⟩ else if n = "B" then some ⟨3, "B"⟩ else none
    updateOrgUser := fun _ => none
    addOrgUser := fun _ => .ok
    removeOrgUser := fun _ => .ok
    userUpdate := fun _ => none }

/-- A user identity asserting `{A: Editor, B: Viewer}` whose active
organization `Z` is not among the asserted roles. -/
def syncIdC2 : SyncIdentity :=
  { syncOrgRoles := true
    isUserNamespace := true
    parsedID := some 9
    orgRoles := [("A", "Editor"), ("B", "Viewer")]
    orgName := "Z"
    orgID := 1 }

/-- A service oracle whose initial membership fetch fails. -/
def syncEnvFetchErr : SyncEnv :=
  { getUserOrgList := .error "db down"
    getByID := fun _ => none
    getByName := fun _ => none
    updateOrgUser := fun _ => none
    addOrgUser := fun _ => .ok
    removeOrgUser := fun _ => .ok
    userUpdate := fun _ => none }

end Grafana

namespace Grafana

/-- C7: anonymous `Authenticate` fails exactly when the configured anonymous
organization cannot be found by name or when device tagging hits the
device-limit condition; any other tagging failure is ignored and the produced
identity carries the anonymous namespace id, the found organization's id and
name, the configured role for that organization, and `SyncPermissions`. -/
theorem anonymous_authenticate_spec (cfg : AnonCfg) (env : AnonEnv) :
    (∀ e, env.getByName cfg.anonymousOrgName = .error e →
      authenticate cfg env = .error (.orgLookup e)) ∧
    (∀ o, env.getByName cfg.anonymousOrgName = .ok o →
      env.tagDevice = .deviceLimitReached →
      authenticate cfg env = .error .deviceLimit) ∧
    (∀ o, env.getByName cfg.anonymousOrgName = .ok o →
      env.tagDevice ≠ .deviceLimitReached →
      authenticate cfg env = .ok
        { id := anonymousNamespaceID, orgID := o.id, orgName := o.name,
          orgRoles := [(o.name, cfg.anonymousOrgRole)],
          syncPermissions := true }) := by
  refine ⟨fun e he => ?_, fun o ho hd => ?_, fun o ho hd => ?_⟩
  · simp [authenticate, he]
  · simp [authenticate, ho, hd]
  · cases ht : env.tagDevice with
    | deviceLimitReached => exact absurd ht hd
    | ok => simp [authenticate, ho, ht, newAnonymousIdentity]
    | fail e => simp [authenticate, ho, ht, newAnonymousIdentity]

/-- Witness for C7 at a concrete configuration: the device store fails with a
non-quota error and authentication still succeeds with the anonymous
identity. -/
theorem anonymous_authenticate_spec_witness :
    authenticate anonCfgW anonEnvW = .ok
      { id := anonymousNamespaceID, orgID := 3, orgName := "Main",
        orgRoles := [("Main", "Viewer")], syncPermissions := true } :=
  (anonymous_authenticate_spec anonCfgW anonEnvW).2.2 ⟨3, "Main"⟩
    (by simp [anonEnvW, anonCfgW]) (by decide)

/-- C8: anonymous `ResolveIdentity` fails with `errInvalidOrg` when the
supplied org id differs from the configured anonymous organization's id,
fails with `errInvalidID` when the namespaced id is not the anonymous
namespace constant, and otherwise returns the same identity a successful
fresh `Authenticate` produces. -/
theorem anonymous_resolve_identity_spec (cfg : AnonCfg) (env : AnonEnv)
    (orgID : Int) (namespaceID : String) (o : Org)
    (ho : env.getByName cfg.anonymousOrgName = .ok o) :
    (o.id ≠ orgID →
      resolveIdentity cfg env orgID namespaceID = .error .invalidOrg) ∧
    (o.id = orgID → namespaceID ≠ anonymousNamespaceID →
      resolveIdentity cfg env orgID namespaceID = .error .invalidID) ∧
    (o.id = orgID → namespaceID = anonymousNamespaceID →
      env.tagDevice ≠ .deviceLimitReached →
      resolveIdentity cfg env orgID namespaceID = authenticate cfg env ∧
      ∃ i, authenticate cfg env = .ok i) := by
  refine ⟨fun hne => ?_, fun heq hns => ?_, fun heq hns hd => ?_⟩
  · simp [resolveIdentity, ho, hne]
  · simp [resolveIdentity, ho, heq, hns]
  · have hauth : authenticate cfg env = .ok (newAnonymousIdentity cfg o) := by
      cases ht : env.tagDevice with
      | deviceLimitReached => exact absurd ht hd
      | ok => simp [authenticate, ho, ht]
      | fail e => simp [authenticate, ho, ht]
    refine ⟨?_, newAnonymousIdentity cfg o, hauth⟩
    rw [hauth]
    simp [resolveIdentity, ho, heq, hns]

/-- Witness for C8 at a concrete configuration: with the matching org id and
the anonymous namespace constant, resolution coincides with a successful
fresh authentication. -/
theorem anonymous_resolve_identity_spec_witness :
    resolveIdentity anonCfgW anonEnvW 3 anonymousNamespaceID =
      authenticate anonCfgW anonEnvW ∧
    ∃ i, authenticate anonCfgW anonEnvW = .ok i :=
  (anonymous_resolve_identity_spec anonCfgW anonEnvW 3 anonymousNamespaceID
      ⟨3, "Main"⟩ (by simp [anonEnvW, anonCfgW])).2.2 (by decide) rfl (by decide)

end Grafana

namespace Grafana

/-- C4: with an empty asserted `OrgRoles` map the role-sync hook performs no
service mutation at all and returns no error (it exits on the
`len(id.OrgRoles) == 0` guard, or on an earlier guard, all of which
`return nil` before any membership call). -/
theorem syncOrgRoles_empty_roles_noop (env : SyncEnv) (id : SyncIdentity)
    (h : id.orgRoles = []) :
    syncOrgRolesHook env id = .noop ∧
    (syncOrgRolesHook env id).traceOf = [] ∧
    (syncOrgRolesHook env id).errOf = none := by
  have hnoop : syncOrgRolesHook env id = .noop := by
    unfold syncOrgRolesHook
    cases hs : id.syncOrgRoles <;> cases hu : id.isUserNamespace <;>
      cases hp : id.parsedID <;> simp [h]
  exact ⟨hnoop, by rw [hnoop]; rfl, by rw [hnoop]; rfl⟩

/-- Witness for C4: a concrete user with empty asserted roles against the
benign service environment. -/
theorem syncOrgRoles_empty_roles_noop_witness :
    syncOrgRolesHook syncEnvW syncIdEmptyW = .noop ∧
    (syncOrgRolesHook syncEnvW syncIdEmptyW).traceOf = [] ∧
    (syncOrgRolesHook syncEnvW syncIdEmptyW).errOf = none :=
  syncOrgRoles_empty_roles_noop syncEnvW syncIdEmptyW rfl

end Grafana

namespace Grafana

/-- The loop body of the static branch agrees pointwise with the
`staticEntry` spec-side contribution. -/
lemma staticStep_eq (res : List (List Char × String)) (role : List Char) :
    (match splitOnChar ':' role with
     | [_, o, r] =>
       if r = "admin".toList then setAssoc res o "Editor"
       else if r = "viewer".toList then setAssoc res o "Viewer"
       else res
     | _ => res) =
    (match staticEntry role with
     | some p => setAssoc res p.1 p.2
     | none => res) := by
  unfold staticEntry
  rcases hsp : splitOnChar ':' role with _ | ⟨a, _ | ⟨o, _ | ⟨r, _ | ⟨x, l⟩⟩⟩⟩ <;>
    simp
  split_ifs <;> simp

/-- C6: the static role extraction maps exactly the well-formed
`scope:org:role` triples ending in `admin` (to Editor) or `viewer` (to
Viewer), ignoring everything else; in particular
`["x:teamA:admin", "x:teamB:viewer", "bad"]` yields
`{teamA ↦ Editor, teamB ↦ Viewer}`. -/
theorem staticOrgRole_extraction :
    (∀ rolesSlice : List (List Char),
      staticOrgRoleExtract rolesSlice =
        (rolesSlice.filterMap staticEntry).foldl
          (fun res p => setAssoc res p.1 p.2) []) ∧
    staticOrgRoleExtract
        ["x:teamA:admin".toList, "x:teamB:viewer".toList, "bad".toList] =
      [("teamA".toList, "Editor"), ("teamB".toList, "Viewer")] := by
  constructor
  · intro rolesSlice
    have hgen : ∀ (rs : List (List Char)) (init : List (List Char × String)),
        rs.foldl (fun res role =>
          match splitOnChar ':' role with
          | [_, o, r] =>
            if r = "admin".toList then setAssoc res o "Editor"
            else if r = "viewer".toList then setAssoc res o "Viewer"
            else res
          | _ => res) init =
        (rs.filterMap staticEntry).foldl (fun res p => setAssoc res p.1 p.2) init := by
      intro rs
      induction rs with
      | nil => intro init; rfl
      | cons hd tl ih =>
        intro init
        rw [List.foldl_cons, staticStep_eq init hd, List.filterMap_cons]
        cases hse : staticEntry hd with
        | none => simpa using ih init
        | some p => simpa using ih (setAssoc init p.1 p.2)
    exact hgen rolesSlice []
  · decide

end Grafana

namespace Grafana

/-- Membership from a successful positional lookup. -/
lemma mem_of_get?_eq (l : List Char) (n : Nat) (a : Char)
    (h : l.get? n = some a) : a ∈ l := by
  induction l generalizing n with
  | nil => exact Option.noConfusion h
  | cons hd tl ih =>
    cases n with
    | zero =>
      have h' : hd = a := Option.some.inj h
      rw [← h']
      exact List.mem_cons_self hd tl
    | succ n => exact List.mem_cons_of_mem hd (ih n h)

/-- `lastIndexOf` returns Go's `-1` (here `none`) exactly on strings not
containing the needle. -/
lemma lastIndexOf_eq_none_iff (c : Char) (s : List Char) :
    lastIndexOf c s = none ↔ c ∉ s := by
  induction s with
  | nil => simp [lastIndexOf]
  | cons a rest ih =>
    unfold lastIndexOf
    cases h : lastIndexOf c rest with
    | some i =>
      have : c ∈ rest := by
        by_contra hc
        rw [← ih] at hc
        rw [h] at hc
        exact Option.noConfusion hc
      simp [this]
    | none =>
      have hrest : c ∉ rest := ih.mp h
      by_cases hac : a = c
      · simp [hac]
      · have hca : ¬c = a := fun hca => hac hca.symm
        simp [hac, hrest, hca]

/-- `lastIndexOf` finds an occurrence of the needle, and the last one. -/
lemma lastIndexOf_spec (c : Char) (s : List Char) (i : Nat)
    (h : lastIndexOf c s = some i) :
    s.get? i = some c ∧ ∀ j, i < j → s.get? j ≠ some c := by
  induction s generalizing i with
  | nil => simp [lastIndexOf] at h
  | cons a rest ih =>
    unfold lastIndexOf at h
    cases hr : lastIndexOf c rest with
    | some i' =>
      rw [hr] at h
      have hi : i = i' + 1 := by
        injection h with h'
        omega
      subst hi
      obtain ⟨hget, hlast⟩ := ih i' hr
      refine ⟨by simpa using hget, ?_⟩
      intro j hj
      cases j with
      | zero => omega
      | succ j' =>
        have : i' < j' := by omega
        simpa using hlast j' this
    | none =>
      rw [hr] at h
      by_cases hac : a = c
      · rw [if_pos hac] at h
        have hi : i = 0 := by
          injection h with h'
          omega
        subst hi
        refine ⟨by simp [hac], ?_⟩
        intro j hj
        cases j with
        | zero => omega
        | succ j' =>
          have hnm : c ∉ rest := (lastIndexOf_eq_none_iff c rest).mp hr
          simp only [List.get?]
          intro hcon
          exact hnm (mem_of_get?_eq rest j' c hcon)
      · rw [if_neg hac] at h
        exact Option.noConfusion h

/-- The token loop of `parseOrgMapperConfig` completes exactly when every
remaining token contains a colon. -/
lemma parseOrgMapperLoop_isSome_iff (tokens : List (List Char))
    (res : List (List Char × List Char)) :
    (parseOrgMapperLoop tokens res).isSome ↔ ∀ t ∈ tokens, ':' ∈ t := by
  induction tokens generalizing res with
  | nil => simp [parseOrgMapperLoop]
  | cons t ts ih =>
    unfold parseOrgMapperLoop
    cases h : lastIndexOf ':' t with
    | none =>
      have : ':' ∉ t := (lastIndexOf_eq_none_iff ':' t).mp h
      simp [this]
    | some i =>
      have hmem : ':' ∈ t := by
        by_contra hc
        rw [← lastIndexOf_eq_none_iff] at hc
        rw [h] at hc
        exact Option.noConfusion hc
      simp [hmem, ih]

/-- C10: `parseOrgMapperConfig` yields the empty map on the empty input, is
total exactly on inputs all of whose whitespace-separated tokens contain a
colon (a token without one panics, modelled as `none`), and a well-formed
token contributes the substring before its last colon mapped to the substring
after it. -/
theorem parseOrgMapperConfig_totality :
    parseOrgMapperConfig [] = some [] ∧
    (∀ input, (parseOrgMapperConfig input).isSome ↔
      ∀ t ∈ fields input, ':' ∈ t) ∧
    (∀ t i, lastIndexOf ':' t = some i →
      t.get? i = some ':' ∧ ∀ j, i < j → t.get? j ≠ some ':') ∧
    (∀ ts t i res, lastIndexOf ':' t = some i →
      parseOrgMapperLoop (t :: ts) res =
        parseOrgMapperLoop ts (setAssoc res (t.take i) (t.drop (i + 1)))) := by
  refine ⟨rfl, fun input => ?_, fun t i h => lastIndexOf_spec ':' t i h,
    fun ts t i res h => ?_⟩
  · by_cases hi : input.isEmpty
    · have : input = [] := by simpa using hi
      subst this
      simp [parseOrgMapperConfig, fields, fieldsAux]
    · simp [parseOrgMapperConfig, hi, parseOrgMapperLoop_isSome_iff]
  · conv_lhs => unfold parseOrgMapperLoop
    rw [h]

/-- Witness for C10: the token `a:b` splits at its last colon into pattern
`a` and role `b`. -/
theorem parseOrgMapperConfig_totality_witness :
    parseOrgMapperLoop ["a:b".toList] [] =
      parseOrgMapperLoop []
        (setAssoc [] ("a:b".toList.take 1) ("a:b".toList.drop 2)) :=
  parseOrgMapperConfig_totality.2.2.2 [] "a:b".toList 1 [] (by decide)

end Grafana

namespace Grafana

/-- Lookup after the map-rewrite half of `setAssoc`, at a different key. -/
lemma lookupRole_map_set_ne {α : Type} [DecidableEq α]
    (res : List (α × String)) (k : α) (v : String) (n : α) (hne : n ≠ k) :
    lookupRole (res.map fun p => if p.1 = k then (k, v) else p) n =
      lookupRole res n := by
  induction res with
  | nil => rfl
  | cons p rest ih =>
    by_cases h1 : p.1 = k
    · simp [lookupRole, h1, Ne.symm hne, ih]
    · by_cases h2 : p.1 = n
      · simp [lookupRole, h1, h2, hne]
      · simp [lookupRole, h1, h2, ih]

/-- Lookup after the map-rewrite half of `setAssoc`, at the written key. -/
lemma lookupRole_map_set_eq {α : Type} [DecidableEq α]
    (res : List (α × String)) (k : α) (v : String)
    (hmem : res.any (fun p => p.1 = k) = true) :
    lookupRole (res.map fun p => if p.1 = k then (k, v) else p) k = v := by
  induction res with
  | nil => simp at hmem
  | cons p rest ih =>
    by_cases h1 : p.1 = k
    · simp [lookupRole, h1]
    · have hf : (decide (p.1 = k)) = false := decide_eq_false h1
      rw [List.any_cons, hf, Bool.false_or] at hmem
      simp [lookupRole, h1, ih hmem]

/-- Lookup after the append half of `setAssoc`. -/
lemma lookupRole_append_single {α : Type} [DecidableEq α]
    (res : List (α × String)) (k : α) (v : String) (n : α)
    (hnone : res.any (fun p => p.1 = k) = false) :
    lookupRole (res ++ [(k, v)]) n = if n = k then v else lookupRole res n := by
  induction res with
  | nil =>
    by_cases h : k = n
    · simp [lookupRole, h]
    · have hnk : ¬(n = k) := fun hn => h hn.symm
      simp [lookupRole, h, hnk]
  | cons p rest ih =>
    rw [List.any_cons] at hnone
    have h1 : ¬(p.1 = k) := by
      intro hh
      rw [decide_eq_true hh, Bool.true_or] at hnone
      exact Bool.noConfusion hnone
    have hrest : rest.any (fun p => p.1 = k) = false := by
      cases hb : rest.any (fun p => p.1 = k) with
      | false => rfl
      | true =>
        rw [hb, Bool.or_true] at hnone
        exact Bool.noConfusion hnone
    by_cases h2 : p.1 = n
    · have hnk : ¬(n = k) := fun hnk => h1 (h2.trans hnk)
      simp [lookupRole, h2, hnk]
    · simp [lookupRole, h2, ih hrest]

/-- `setAssoc` updates the lookup function pointwise. -/
lemma lookupRole_setAssoc {α : Type} [DecidableEq α]
    (res : List (α × String)) (k : α) (v : String) (n : α) :
    lookupRole (setAssoc res k v) n = if n = k then v else lookupRole res n := by
  unfold setAssoc
  cases hany : res.any (fun p => p.1 = k) with
  | false =>
    simp only [hany, Bool.false_eq_true, if_false]
    exact lookupRole_append_single res k v n hany
  | true =>
    simp only [hany, if_true]
    by_cases h : n = k
    · subst h
      simp [lookupRole_map_set_eq res n v hany]
    · simp [h, lookupRole_map_set_ne res k v n h]

/-- An organization already resolved in the accumulated result map is never
overwritten by the `SubexpNames` loop of a later regex match. -/
lemma applyRegexMatch_preserves (grafanaRole : String) :
    ∀ (groups : List (String × String)) (res : List (String × String))
      (org : String),
      lookupRole res org ≠ "" →
      lookupRole (applyRegexMatch res grafanaRole groups) org =
        lookupRole res org := by
  intro groups
  induction groups with
  | nil => intro res org _; rfl
  | cons g gs ih =>
    intro res org h
    have hstep : lookupRole
        (if g.1 = "org" ∧ lookupRole res g.2 = ""
         then setAssoc res g.2 grafanaRole else res) org = lookupRole res org := by
      by_cases hc : g.1 = "org" ∧ lookupRole res g.2 = ""
      · rw [if_pos hc, lookupRole_setAssoc]
        have hno : ¬(org = g.2) := by
          intro he
          rw [he] at h
          exact h hc.2
        rw [if_neg hno]
      · rw [if_neg hc]
    have hne : lookupRole
        (if g.1 = "org" ∧ lookupRole res g.2 = ""
         then setAssoc res g.2 grafanaRole else res) org ≠ "" := by
      rw [hstep]; exact h
    have h2 := ih _ org hne
    rw [hstep] at h2
    exact h2

/-- An organization already resolved in the accumulated result map is
preserved by a whole pattern-map pass over one asserted role string. -/
lemma regexRoleStep_preserves
    (matchFn : String → String → Option (List (String × String)))
    (jwtRole org : String) :
    ∀ (mapper : List (String × String)) (res : List (String × String)),
      lookupRole res org ≠ "" →
      lookupRole (mapper.foldl (fun r pat =>
        match matchFn pat.1 jwtRole with
        | none => r
        | some groups => applyRegexMatch r pat.2 groups) res) org =
        lookupRole res org := by
  intro mapper
  induction mapper with
  | nil => intro res _; rfl
  | cons pat rest ih =>
    intro res h
    simp only [List.foldl_cons]
    have hstep : lookupRole (match matchFn pat.1 jwtRole with
        | none => res
        | some groups => applyRegexMatch res pat.2 groups) org =
        lookupRole res org := by
      cases hm : matchFn pat.1 jwtRole with
      | none => rfl
      | some groups => exact applyRegexMatch_preserves pat.2 groups res org h
    have hne : lookupRole (match matchFn pat.1 jwtRole with
        | none => res
        | some groups => applyRegexMatch res pat.2 groups) org ≠ "" := by
      rw [hstep]; exact h
    rw [ih _ hne, hstep]

/-- Counterexample to C5 as stated: the same set of pattern ↦ role pairs in
its two iteration orders, with both patterns matching the single role string
`Xr` and capturing organization `X`, produces two different mappings — the
extraction is not independent of the Go map's iteration order. -/
theorem regexOrgRole_order_dependent_cex :
    regexOrgRoleExtract [("p1", "Editor"), ("p2", "Viewer")] regexMatchW ["Xr"] =
      [("X", "Editor")] ∧
    regexOrgRoleExtract [("p2", "Viewer"), ("p1", "Editor")] regexMatchW ["Xr"] =
      [("X", "Viewer")] :=
  ⟨by decide, by decide⟩

/-- C5 (amended): for a fixed iteration order of the configured pattern map
the extraction is a deterministic function of that ordered list and the role
strings, with the first match per organization winning: an already-resolved
organization is never overwritten, neither by later groups/patterns within
one pass (first conjunct) nor by later role strings (second conjunct). -/
theorem regexOrgRole_first_match_wins (mapper : List (String × String))
    (matchFn : String → String → Option (List (String × String))) :
    (∀ res grafanaRole groups org, lookupRole res org ≠ "" →
      lookupRole (applyRegexMatch res grafanaRole groups) org =
        lookupRole res org) ∧
    (∀ roles roles' org,
      lookupRole (regexOrgRoleExtract mapper matchFn roles) org ≠ "" →
      lookupRole (regexOrgRoleExtract mapper matchFn (roles ++ roles')) org =
        lookupRole (regexOrgRoleExtract mapper matchFn roles) org) := by
  constructor
  · intro res grafanaRole groups org h
    exact applyRegexMatch_preserves grafanaRole groups res org h
  · intro roles roles' org h
    have haux : ∀ (rs : List String) (base : List (String × String)),
        lookupRole base org ≠ "" →
        lookupRole (rs.foldl (fun res jwtRole => mapper.foldl (fun r pat =>
          match matchFn pat.1 jwtRole with
          | none => r
          | some groups => applyRegexMatch r pat.2 groups) res) base) org =
          lookupRole base org := by
      intro rs
      induction rs with
      | nil => intro base _; rfl
      | cons s ss ih =>
        intro base hb
        simp only [List.foldl_cons]
        have hstep := regexRoleStep_preserves matchFn s org mapper base hb
        have hne : lookupRole (mapper.foldl (fun r pat =>
            match matchFn pat.1 s with
            | none => r
            | some groups => applyRegexMatch r pat.2 groups) base) org ≠ "" := by
          rw [hstep]; exact hb
        rw [ih _ hne, hstep]
    unfold regexOrgRoleExtract
    rw [List.foldl_append]
    exact haux roles' _ h

/-- Witness for the amended C5: with one configured pattern, a second pass of
the same role string leaves the already-resolved organization unchanged. -/
theorem regexOrgRole_first_match_wins_witness :
    lookupRole (regexOrgRoleExtract [("p1", "Editor")] regexMatchW
      (["Xr"] ++ ["Xr"])) "X" =
      lookupRole (regexOrgRoleExtract [("p1", "Editor")] regexMatchW ["Xr"]) "X" :=
  (regexOrgRole_first_match_wins [("p1", "Editor")] regexMatchW).2
    ["Xr"] ["Xr"] "X" (by decide)

end Grafana

namespace Grafana

/-- Counterexample to C3 as stated: a run in which the only add-membership
call fails with the `ErrOrgNotFound` condition, yet the hook returns no
error (the failure is absorbed by `!errors.Is(err, org.ErrOrgNotFound)`). -/
theorem syncOrgRoles_error_policy_cex :
    syncEnvAddNF.addOrgUser 1 = .orgNotFound ∧
    syncOrgRolesHook syncEnvAddNF syncIdAddNF =
      .done none [] [.addOrgUser 1 "Editor"] 5 :=
  ⟨rfl, by decide⟩

/-- C3 (amended): a failed initial membership fetch makes the hook a no-op
returning no error; a removal rejected with the last-admin condition is
skipped with the membership retained; every other removal failure and every
update failure is returned as the hook's error; an add failure is returned
unless it is the org-not-found condition, which is absorbed and iteration
continues without that membership. -/
theorem syncOrgRoles_error_policy (env : SyncEnv) (id : SyncIdentity)
    (uid : Int) (h1 : id.syncOrgRoles = true) (h2 : id.isUserNamespace = true)
    (h3 : id.parsedID = some uid) :
    (∀ e, id.orgRoles ≠ [] → env.getUserOrgList = .error e →
      syncOrgRolesHook env id = .noop) ∧
    (∀ oid rest ms tr, env.removeOrgUser oid = .lastOrgAdmin →
      removeLoop env (oid :: rest) ms tr =
        removeLoop env rest ms (tr ++ [.removeOrgUser oid])) ∧
    (∀ oid rest ms tr e, env.removeOrgUser oid = .fail e →
      removeLoop env (oid :: rest) ms tr =
        .err e ms (tr ++ [.removeOrgUser oid])) ∧
    (∀ orga rest handled del ms tr orgb e,
      env.getByID (OrgUser.orgID orga) = some orgb →
      lookupRole id.orgRoles orgb.name ≠ "" →
      lookupRole id.orgRoles orgb.name ≠ orga.role →
      env.updateOrgUser orga.orgID = some e →
      updateExistingLoop env id.orgRoles (orga :: rest) handled del ms tr =
        .err e ms
          (tr ++ [.updateOrgUser orga.orgID (lookupRole id.orgRoles orgb.name)])) ∧
    (∀ orgName orgRole rest handled orgIDs ms tr orga e,
      env.getByName orgName = some orga → handled.contains orga.id = false →
      env.addOrgUser orga.id = .fail e →
      addNewLoop env ((orgName, orgRole) :: rest) handled orgIDs ms tr =
        .err e ms (tr ++ [.addOrgUser orga.id orgRole])) ∧
    (∀ orgName orgRole rest handled orgIDs ms tr orga,
      env.getByName orgName = some orga → handled.contains orga.id = false →
      env.addOrgUser orga.id = .orgNotFound →
      addNewLoop env ((orgName, orgRole) :: rest) handled orgIDs ms tr =
        addNewLoop env rest handled (orgIDs ++ [orga.id]) ms
          (tr ++ [.addOrgUser orga.id orgRole])) ∧
    (∀ result e ms tr, env.getUserOrgList = .ok result → id.orgRoles ≠ [] →
      updateExistingLoop env id.orgRoles result [] [] result [] = .err e ms tr →
      syncOrgRolesHook env id = .done (some e) ms tr id.orgID) ∧
    (∀ result handled del ms tr e ms' tr',
      env.getUserOrgList = .ok result → id.orgRoles ≠ [] →
      updateExistingLoop env id.orgRoles result [] [] result [] =
        .ok handled del ms tr →
      addNewLoop env id.orgRoles handled [] ms tr = .err e ms' tr' →
      syncOrgRolesHook env id = .done (some e) ms' tr' id.orgID) ∧
    (∀ result handled del ms tr orgIDs ms' tr' e ms'' tr'',
      env.getUserOrgList = .ok result → id.orgRoles ≠ [] →
      updateExistingLoop env id.orgRoles result [] [] result [] =
        .ok handled del ms tr →
      addNewLoop env id.orgRoles handled [] ms tr = .ok orgIDs ms' tr' →
      removeLoop env del ms' tr' = .err e ms'' tr'' →
      syncOrgRolesHook env id = .done (some e) ms'' tr'' id.orgID) := by
  have hempOf : id.orgRoles ≠ [] → id.orgRoles.isEmpty = false := by
    intro hne
    cases hr : id.orgRoles with
    | nil => exact absurd hr hne
    | cons a l => rfl
  refine ⟨?_, ?_, ?_, ?_, ?_, ?_, ?_, ?_, ?_⟩
  · intro e hne hf
    simp [syncOrgRolesHook, h1, h2, h3, hempOf hne, hf]
  · intro oid rest ms tr hr
    conv_lhs => unfold removeLoop
    rw [hr]
  · intro oid rest ms tr e hr
    conv_lhs => unfold removeLoop
    rw [hr]
  · intro orga rest handled del ms tr orgb e hgid hne hnr hupd
    unfold updateExistingLoop
    simp only [hgid]
    rw [if_neg hne, if_pos hnr, hupd]
  · intro orgName orgRole rest handled orgIDs ms tr orga e hbn hcont hadd
    unfold addNewLoop
    simp only [hbn, hcont, Bool.false_eq_true, if_false, hadd]
  · intro orgName orgRole rest handled orgIDs ms tr orga hbn hcont hadd
    simp only [addNewLoop, hbn, hcont, Bool.false_eq_true, if_false, hadd]
  · intro result e ms tr hres hne hp1
    simp [syncOrgRolesHook, h1, h2, h3, hempOf hne, hres, hp1]
  · intro result handled del ms tr e ms' tr' hres hne hp1 hp2
    simp [syncOrgRolesHook, h1, h2, h3, hempOf hne, hres, hp1, hp2]
  · intro result handled del ms tr orgIDs ms' tr' e ms'' tr'' hres hne hp1 hp2 hp3
    simp [syncOrgRolesHook, h1, h2, h3, hempOf hne, hres, hp1, hp2, hp3]

/-- Witness for the amended C3: a concrete run whose membership fetch fails
returns no error and performs nothing. -/
theorem syncOrgRoles_error_policy_witness :
    syncOrgRolesHook syncEnvFetchErr syncIdAddNF = .noop :=
  (syncOrgRoles_error_policy syncEnvFetchErr syncIdAddNF 7 rfl rfl rfl).1
    "db down" (by decide) rfl

end Grafana

namespace Grafana

/-- The update loop cannot reach the nil dereference when the organization
lookup by id succeeds for every processed membership. -/
lemma updateExistingLoop_no_panic (env : SyncEnv)
    (roles : List (String × String)) :
    ∀ (l : List OrgUser) (handled del : List Int) (ms : List OrgUser)
      (tr : List Mutation),
      (∀ ou ∈ l, (env.getByID ou.orgID).isSome) →
      updateExistingLoop env roles l handled del ms tr ≠ .panicked := by
  intro l
  induction l with
  | nil =>
    intro handled del ms tr _
    simp [updateExistingLoop]
  | cons orga rest ih =>
    intro handled del ms tr hall
    have hhead := hall orga (List.mem_cons_self _ _)
    obtain ⟨orgb, horgb⟩ := Option.isSome_iff_exists.mp hhead
    have htail : ∀ ou ∈ rest, (env.getByID ou.orgID).isSome :=
      fun ou hou => hall ou (List.mem_cons_of_mem _ hou)
    simp only [updateExistingLoop, horgb]
    split_ifs with hc1 hc2
    · exact ih _ _ _ _ htail
    · cases hu : env.updateOrgUser orga.orgID with
      | some e => simp
      | none => exact ih _ _ _ _ htail
    · exact ih _ _ _ _ htail

/-- Under the hook's guards and a successful membership fetch, the hook
panics exactly when the update loop reaches its nil dereference. -/
lemma syncOrgRolesHook_panicked_iff (env : SyncEnv) (id : SyncIdentity)
    (uid : Int) (h1 : id.syncOrgRoles = true) (h2 : id.isUserNamespace = true)
    (h3 : id.parsedID = some uid) (h4 : id.orgRoles ≠ [])
    (result : List OrgUser) (hres : env.getUserOrgList = .ok result) :
    syncOrgRolesHook env id = .panicked ↔
      updateExistingLoop env id.orgRoles result [] [] result [] = .panicked := by
  have hemp : id.orgRoles.isEmpty = false := by
    cases hr : id.orgRoles with
    | nil => exact absurd hr h4
    | cons a l => rfl
  unfold syncOrgRolesHook
  rw [h1, h2, h3]
  simp only [hemp, hres, Bool.not_true, Bool.false_eq_true, if_false]
  cases hp1 : updateExistingLoop env id.orgRoles result [] [] result [] with
  | panicked => simp
  | err e ms tr => simp
  | ok handled del ms tr =>
    cases hp2 : addNewLoop env id.orgRoles handled [] ms tr with
    | err e ms' tr' => simp [hp2]
    | ok orgIDs ms' tr' =>
      cases hp3 : removeLoop env del ms' tr' with
      | err e ms'' tr'' => simp [hp2, hp3]
      | ok ms'' tr'' =>
        by_cases hk : hasKey id.orgRoles id.orgName
        · simp [hp2, hp3, hk]
        · cases hsa : sortAsc orgIDs with
          | nil => simp [hp2, hp3, hk, hsa]
          | cons m t => simp [hp2, hp3, hk, hsa]

/-- C9: the role-sync hook is panic-free exactly under the precondition that
the discarded-error `GetByID` lookup succeeds for every fetched membership: a
failed lookup makes the update loop dereference nil, and that is the hook's
only panic source. -/
theorem syncOrgRoles_getByID_safety (env : SyncEnv) (id : SyncIdentity)
    (uid : Int) (h1 : id.syncOrgRoles = true) (h2 : id.isUserNamespace = true)
    (h3 : id.parsedID = some uid) (h4 : id.orgRoles ≠ [])
    (result : List OrgUser) (hres : env.getUserOrgList = .ok result) :
    ((∀ ou ∈ result, (env.getByID ou.orgID).isSome) →
      syncOrgRolesHook env id ≠ .panicked) ∧
    (∀ orga rest handled del ms tr, env.getByID (OrgUser.orgID orga) = none →
      updateExistingLoop env id.orgRoles (orga :: rest) handled del ms tr =
        .panicked) ∧
    (updateExistingLoop env id.orgRoles result [] [] result [] = .panicked →
      syncOrgRolesHook env id = .panicked) := by
  refine ⟨?_, ?_, ?_⟩
  · intro hall hcon
    exact updateExistingLoop_no_panic env id.orgRoles result [] [] result []
      hall ((syncOrgRolesHook_panicked_iff env id uid h1 h2 h3 h4 result
        hres).mp hcon)
  · intro orga rest handled del ms tr hgid
    conv_lhs => unfold updateExistingLoop
    rw [hgid]
  · intro hp
    exact (syncOrgRolesHook_panicked_iff env id uid h1 h2 h3 h4 result
      hres).mpr hp

/-- Witness for C9: a concrete membership whose organization lookup fails
drives the update loop into the modelled nil dereference. -/
theorem syncOrgRoles_getByID_safety_witness :
    updateExistingLoop syncEnvAddNF syncIdAddNF.orgRoles
      [OrgUser.mk 2 "Viewer"] [] [] [OrgUser.mk 2 "Viewer"] [] = .panicked :=
  (syncOrgRoles_getByID_safety syncEnvAddNF syncIdAddNF 7 rfl rfl rfl
    (by decide) [] rfl).2.1 (OrgUser.mk 2 "Viewer") [] [] [] [OrgUser.mk 2 "Viewer"]
    [] rfl

end Grafana

namespace Grafana

/-- With successful id lookups and updates the update loop completes. -/
lemma updateExistingLoop_total (env : SyncEnv) (roles : List (String × String))
    (hupd : ∀ i, env.updateOrgUser i = none) :
    ∀ (l : List OrgUser) (handled del : List Int) (ms : List OrgUser)
      (tr : List Mutation),
      (∀ ou ∈ l, (env.getByID ou.orgID).isSome) →
      ∃ handled' del' ms' tr',
        updateExistingLoop env roles l handled del ms tr =
          .ok handled' del' ms' tr' := by
  intro l
  induction l with
  | nil => intro handled del ms tr _; exact ⟨handled, del, ms, tr, rfl⟩
  | cons orga rest ih =>
    intro handled del ms tr hall
    obtain ⟨orgb, horgb⟩ :=
      Option.isSome_iff_exists.mp (hall orga (List.mem_cons_self _ _))
    have htail : ∀ ou ∈ rest, (env.getByID ou.orgID).isSome :=
      fun ou hou => hall ou (List.mem_cons_of_mem _ hou)
    simp only [updateExistingLoop, horgb]
    split_ifs with hc1 hc2
    · exact ih _ _ _ _ htail
    · rw [hupd orga.orgID]
      exact ih _ _ _ _ htail
    · exact ih _ _ _ _ htail

/-- With no hard add failure the add loop completes, collecting exactly the
organization ids the asserted roles resolve by name. -/
lemma addNewLoop_orgIDs (env : SyncEnv)
    (hadd : ∀ i e, env.addOrgUser i ≠ .fail e) :
    ∀ (rl : List (String × String)) (handled acc : List Int)
      (ms : List OrgUser) (tr : List Mutation),
      ∃ ms' tr', addNewLoop env rl handled acc ms tr =
        .ok (acc ++ resolvedOrgIDs env rl) ms' tr' := by
  intro rl
  induction rl with
  | nil =>
    intro handled acc ms tr
    exact ⟨ms, tr, by simp [addNewLoop, resolvedOrgIDs]⟩
  | cons p rest ih =>
    intro handled acc ms tr
    obtain ⟨orgName, orgRole⟩ := p
    cases hbn : env.getByName orgName with
    | none =>
      have hres : resolvedOrgIDs env ((orgName, orgRole) :: rest) =
          resolvedOrgIDs env rest := by
        simp [resolvedOrgIDs, hbn]
      rw [hres]
      simp only [addNewLoop, hbn]
      exact ih handled acc ms tr
    | some orga =>
      have hres : resolvedOrgIDs env ((orgName, orgRole) :: rest) =
          orga.id :: resolvedOrgIDs env rest := by
        simp [resolvedOrgIDs, hbn]
      rw [hres]
      simp only [addNewLoop, hbn]
      by_cases hcont : handled.contains orga.id = true
      · rw [if_pos hcont]
        obtain ⟨ms', tr', hrec⟩ := ih handled (acc ++ [orga.id]) ms tr
        refine ⟨ms', tr', ?_⟩
        rw [hrec]
        simp [List.append_assoc]
      · rw [if_neg hcont]
        cases ha : env.addOrgUser orga.id with
        | fail e => exact absurd ha (hadd orga.id e)
        | orgNotFound =>
          obtain ⟨ms', tr', hrec⟩ := ih handled (acc ++ [orga.id]) ms
            (tr ++ [.addOrgUser orga.id orgRole])
          refine ⟨ms', tr', ?_⟩
          simp only [ha]
          rw [hrec]
          simp [List.append_assoc]
        | ok =>
          obtain ⟨ms', tr', hrec⟩ := ih handled (acc ++ [orga.id])
            (ms ++ [⟨orga.id, orgRole⟩]) (tr ++ [.addOrgUser orga.id orgRole])
          refine ⟨ms', tr', ?_⟩
          simp only [ha]
          rw [hrec]
          simp [List.append_assoc]

/-- With no hard removal failure the delete loop completes. -/
lemma removeLoop_total (env : SyncEnv)
    (hrem : ∀ i e, env.removeOrgUser i ≠ .fail e) :
    ∀ (dl : List Int) (ms : List OrgUser) (tr : List Mutation),
      ∃ ms' tr', removeLoop env dl ms tr = .ok ms' tr' := by
  intro dl
  induction dl with
  | nil => intro ms tr; exact ⟨ms, tr, rfl⟩
  | cons oid rest ih =>
    intro ms tr
    cases hr : env.removeOrgUser oid with
    | fail e => exact absurd hr (hrem oid e)
    | lastOrgAdmin =>
      obtain ⟨ms', tr', hrec⟩ := ih ms (tr ++ [.removeOrgUser oid])
      exact ⟨ms', tr', by simp only [removeLoop, hr]; exact hrec⟩
    | ok =>
      obtain ⟨ms', tr', hrec⟩ := ih (ms.filter fun m => m.orgID ≠ oid)
        (tr ++ [.removeOrgUser oid, .deleteUserPermissions oid])
      exact ⟨ms', tr', by simp only [removeLoop, hr]; exact hrec⟩

/-- Inserting into a list never empties it. -/
lemma insertSorted_ne_nil (x : Int) (l : List Int) : insertSorted x l ≠ [] := by
  cases l with
  | nil => simp [insertSorted]
  | cons y ys =>
    simp only [insertSorted]
    split_ifs <;> simp

/-- The insertion sort of the collected org ids is empty only for the empty
list. -/
lemma sortAsc_eq_nil_iff (l : List Int) : sortAsc l = [] ↔ l = [] := by
  cases l with
  | nil => simp [sortAsc]
  | cons a l' =>
    constructor
    · intro h
      exact absurd h (insertSorted_ne_nil a (sortAsc l'))
    · intro h
      exact List.noConfusion h

/-- The head of the sorted org-id list is a minimum of the original list,
which is what `orgIDs[0]` means after `sort.Slice` ascending. -/
lemma sortAsc_head_isMin :
    ∀ (l : List Int) (x : Int) (t : List Int),
      sortAsc l = x :: t → x ∈ l ∧ ∀ y ∈ l, x ≤ y := by
  intro l
  induction l with
  | nil => intro x t h; exact List.noConfusion h
  | cons a l' ih =>
    intro x t h
    have hs : sortAsc (a :: l') = insertSorted a (sortAsc l') := rfl
    rw [hs] at h
    cases hsl : sortAsc l' with
    | nil =>
      rw [hsl] at h
      have hl' : l' = [] := (sortAsc_eq_nil_iff l').mp hsl
      simp only [insertSorted] at h
      injection h with h1 h2
      subst h1
      subst hl'
      refine ⟨List.mem_cons_self _ _, ?_⟩
      intro y hy
      rcases List.mem_cons.mp hy with rfl | hy'
      · exact le_refl _
      · exact absurd hy' (List.not_mem_nil y)
    | cons b t' =>
      rw [hsl] at h
      obtain ⟨hbmem, hbmin⟩ := ih b t' hsl
      by_cases hab : a ≤ b
      · simp only [insertSorted, if_pos hab] at h
        injection h with h1 h2
        subst h1
        refine ⟨List.mem_cons_self _ _, ?_⟩
        intro y hy
        rcases List.mem_cons.mp hy with rfl | hy'
        · exact le_refl _
        · exact le_trans hab (hbmin y hy')
      · simp only [insertSorted, if_neg hab] at h
        injection h with h1 h2
        subst h1
        refine ⟨List.mem_cons_of_mem _ hbmem, ?_⟩
        intro y hy
        rcases List.mem_cons.mp hy with rfl | hy'
        · omega
        · exact hbmin y hy'

/-- C2: when the asserted roles do not contain the identity's active
organization name, the completed role sync sets the in-memory `OrgID` to the
smallest organization id among those resolved from the asserted roles, and
issues the persisting user update with exactly that id. -/
theorem syncOrgRoles_default_org_min (env : SyncEnv) (id : SyncIdentity)
    (uid : Int) (h1 : id.syncOrgRoles = true) (h2 : id.isUserNamespace = true)
    (h3 : id.parsedID = some uid) (h4 : id.orgRoles ≠ [])
    (result : List OrgUser) (hres : env.getUserOrgList = .ok result)
    (hgid : ∀ ou ∈ result, (env.getByID ou.orgID).isSome)
    (hupd : ∀ i, env.updateOrgUser i = none)
    (hadd : ∀ i e, env.addOrgUser i ≠ .fail e)
    (hrem : ∀ i e, env.removeOrgUser i ≠ .fail e)
    (hkey : hasKey id.orgRoles id.orgName = false)
    (hne : resolvedOrgIDs env id.orgRoles ≠ []) :
    ∃ m, (syncOrgRolesHook env id).orgIDOf = some m ∧
      m ∈ resolvedOrgIDs env id.orgRoles ∧
      (∀ y ∈ resolvedOrgIDs env id.orgRoles, m ≤ y) ∧
      Mutation.userUpdate m ∈ (syncOrgRolesHook env id).traceOf := by
  have hemp : id.orgRoles.isEmpty = false := by
    cases hr : id.orgRoles with
    | nil => exact absurd hr h4
    | cons a l => rfl
  obtain ⟨handled, del, ms, tr, hp1⟩ :=
    updateExistingLoop_total env id.orgRoles hupd result [] [] result [] hgid
  obtain ⟨ms', tr', hp2⟩ := addNewLoop_orgIDs env hadd id.orgRoles handled [] ms tr
  rw [List.nil_append] at hp2
  obtain ⟨ms'', tr'', hp3⟩ := removeLoop_total env hrem del ms' tr'
  cases hsa : sortAsc (resolvedOrgIDs env id.orgRoles) with
  | nil => exact absurd ((sortAsc_eq_nil_iff _).mp hsa) hne
  | cons m t =>
    obtain ⟨hmem, hmin⟩ := sortAsc_head_isMin _ m t hsa
    have hrun : syncOrgRolesHook env id =
        .done (env.userUpdate m) ms'' (tr'' ++ [.userUpdate m]) m := by
      unfold syncOrgRolesHook
      rw [h1, h2, h3]
      simp only [hemp, hres, hp1, hp2, hp3, hkey, hsa, Bool.not_true,
        Bool.not_false, Bool.false_eq_true, if_false, if_true]
    refine ⟨m, ?_, hmem, hmin, ?_⟩
    · rw [hrun]
      rfl
    · rw [hrun]
      simp [HookOutcome.traceOf]

/-- Witness for C2: with organizations `A` (id 5) and `B` (id 3) asserted and
the active organization `Z` not asserted, the hook selects id 3. -/
theorem syncOrgRoles_default_org_min_witness :
    ∃ m, (syncOrgRolesHook syncEnvC2 syncIdC2).orgIDOf = some m ∧
      m ∈ resolvedOrgIDs syncEnvC2 syncIdC2.orgRoles ∧
      (∀ y ∈ resolvedOrgIDs syncEnvC2 syncIdC2.orgRoles, m ≤ y) ∧
      Mutation.userUpdate m ∈ (syncOrgRolesHook syncEnvC2 syncIdC2).traceOf :=
  syncOrgRoles_default_org_min syncEnvC2 syncIdC2 9 rfl rfl rfl (by decide)
    [] rfl (by simp) (fun _ => rfl)
    (by intro i e h; simp [syncEnvC2] at h)
    (by intro i e h; simp [syncEnvC2] at h)
    (by decide) (by decide)

end Grafana

namespace Grafana

/-- C1: for a user whose current memberships are exactly organizations `A`
and `B` (either fetch order) and whose identity asserts `{A: Editor}`, the
completed hook leaves the user a member only of `A` with role `Editor`; if
the removal of `B` is rejected with the last-admin condition, that removal is
skipped and `B`'s membership is retained unchanged. -/
theorem syncOrgRoles_two_org_reconciliation (env : SyncEnv) (id : SyncIdentity)
    (uid aid bid : Int) (nA nB ra rb : String)
    (h1 : id.syncOrgRoles = true) (h2 : id.isUserNamespace = true)
    (h3 : id.parsedID = some uid)
    (hroles : id.orgRoles = [(nA, "Editor")])
    (hms : env.getUserOrgList = .ok [⟨aid, ra⟩, ⟨bid, rb⟩] ∨
           env.getUserOrgList = .ok [⟨bid, rb⟩, ⟨aid, ra⟩])
    (hids : aid ≠ bid) (hnames : nA ≠ nB)
    (hga : env.getByID aid = some ⟨aid, nA⟩)
    (hgb : env.getByID bid = some ⟨bid, nB⟩)
    (hbyname : env.getByName nA = some ⟨aid, nA⟩)
    (hupd : env.updateOrgUser aid = none) :
    (env.removeOrgUser bid = .ok →
      (syncOrgRolesHook env id).msOf = some [⟨aid, "Editor"⟩]) ∧
    (env.removeOrgUser bid = .lastOrgAdmin →
      ∃ ml, (syncOrgRolesHook env id).msOf = some ml ∧
        (∀ m, m ∈ ml ↔ (m = OrgUser.mk aid "Editor" ∨ m = OrgUser.mk bid rb))) := by
  have hemp : id.orgRoles.isEmpty = false := by rw [hroles]; rfl
  have hextA : lookupRole id.orgRoles nA = "Editor" := by
    rw [hroles]; simp [lookupRole]
  have hextB : lookupRole id.orgRoles nB = "" := by
    rw [hroles]; simp [lookupRole, hnames]
  have hbidaid : bid ≠ aid := Ne.symm hids
  have hp2 : ∀ (hl : List Int), hl.contains aid = true → ∀ ms0 tr0,
      addNewLoop env id.orgRoles hl [] ms0 tr0 = .ok [aid] ms0 tr0 := by
    intro hl hc ms0 tr0
    rw [hroles]
    simp only [addNewLoop, hbyname, hc, if_true, List.nil_append]
  have hp3ok : env.removeOrgUser bid = .ok → ∀ ms0 tr0,
      removeLoop env [bid] ms0 tr0 =
        .ok (ms0.filter fun m => m.orgID ≠ bid)
          (tr0 ++ [.removeOrgUser bid, .deleteUserPermissions bid]) := by
    intro hro ms0 tr0
    simp only [removeLoop, hro]
  have hp3la : env.removeOrgUser bid = .lastOrgAdmin → ∀ ms0 tr0,
      removeLoop env [bid] ms0 tr0 = .ok ms0 (tr0 ++ [.removeOrgUser bid]) := by
    intro hla ms0 tr0
    simp only [removeLoop, hla]
  have hsa : sortAsc [aid] = [aid] := rfl
  rcases hms with hcase | hcase
  · have hp1 : ∃ trx, updateExistingLoop env id.orgRoles
        [⟨aid, ra⟩, ⟨bid, rb⟩] [] [] [⟨aid, ra⟩, ⟨bid, rb⟩] [] =
        .ok [aid, bid] [bid] [⟨aid, "Editor"⟩, ⟨bid, rb⟩] trx := by
      by_cases hra : ra = "Editor"
      · subst hra
        refine ⟨[], ?_⟩
        simp [updateExistingLoop, hga, hgb, hextA, hextB]
      · have hra' : "Editor" ≠ ra := fun h => hra h.symm
        refine ⟨[.updateOrgUser aid "Editor"], ?_⟩
        simp [updateExistingLoop, hga, hgb, hextA, hextB, hupd, hra', hbidaid]
    obtain ⟨trx, hp1⟩ := hp1
    have hcont : ([aid, bid] : List Int).contains aid = true := by simp
    constructor
    · intro hro
      simp only [syncOrgRolesHook, h1, h2, h3, hemp, hcase, Bool.not_true,
        Bool.false_eq_true, if_false, hp1, hp2 _ hcont, hp3ok hro]
      by_cases hk : hasKey id.orgRoles id.orgName = true
      · simp [hk, HookOutcome.msOf, hids]
      · simp [hk, hsa, HookOutcome.msOf, hids]
    · intro hla
      refine ⟨[⟨aid, "Editor"⟩, ⟨bid, rb⟩], ?_, ?_⟩
      · simp only [syncOrgRolesHook, h1, h2, h3, hemp, hcase, Bool.not_true,
          Bool.false_eq_true, if_false, hp1, hp2 _ hcont, hp3la hla]
        by_cases hk : hasKey id.orgRoles id.orgName = true
        · simp [hk, HookOutcome.msOf]
        · simp [hk, hsa, HookOutcome.msOf]
      · intro m
        simp
  · have hp1 : ∃ trx, updateExistingLoop env id.orgRoles
        [⟨bid, rb⟩, ⟨aid, ra⟩] [] [] [⟨bid, rb⟩, ⟨aid, ra⟩] [] =
        .ok [bid, aid] [bid] [⟨bid, rb⟩, ⟨aid, "Editor"⟩] trx := by
      by_cases hra : ra = "Editor"
      · subst hra
        refine ⟨[], ?_⟩
        simp [updateExistingLoop, hga, hgb, hextA, hextB]
      · have hra' : "Editor" ≠ ra := fun h => hra h.symm
        refine ⟨[.updateOrgUser aid "Editor"], ?_⟩
        simp [updateExistingLoop, hga, hgb, hextA, hextB, hupd, hra', hbidaid]
    obtain ⟨trx, hp1⟩ := hp1
    have hcont : ([bid, aid] : List Int).contains aid = true := by simp
    constructor
    · intro hro
      simp only [syncOrgRolesHook, h1, h2, h3, hemp, hcase, Bool.not_true,
        Bool.false_eq_true, if_false, hp1, hp2 _ hcont, hp3ok hro]
      by_cases hk : hasKey id.orgRoles id.orgName = true
      · simp [hk, HookOutcome.msOf, hids]
      · simp [hk, hsa, HookOutcome.msOf, hids]
    · intro hla
      refine ⟨[⟨bid, rb⟩, ⟨aid, "Editor"⟩], ?_, ?_⟩
      · simp only [syncOrgRolesHook, h1, h2, h3, hemp, hcase, Bool.not_true,
          Bool.false_eq_true, if_false, hp1, hp2 _ hcont, hp3la hla]
        by_cases hk : hasKey id.orgRoles id.orgName = true
        · simp [hk, HookOutcome.msOf]
        · simp [hk, hsa, HookOutcome.msOf]
      · intro m
        simp [or_comm]

/-- Witness for C1: against the benign environment (A = org 1, B = org 2,
removal succeeding), the user ends a member only of A with role Editor. -/
theorem syncOrgRoles_two_org_reconciliation_witness :
    (syncEnvW.removeOrgUser 2 = .ok →
      (syncOrgRolesHook syncEnvW syncIdC1).msOf = some [⟨1, "Editor"⟩]) ∧
    (syncEnvW.removeOrgUser 2 = .lastOrgAdmin →
      ∃ ml, (syncOrgRolesHook syncEnvW syncIdC1).msOf = some ml ∧
        (∀ m, m ∈ ml ↔ (m = OrgUser.mk 1 "Editor" ∨ m = OrgUser.mk 2 "Editor"))) :=
  syncOrgRoles_two_org_reconciliation syncEnvW syncIdC1 7 1 2 "A" "B"
    "Viewer" "Editor" rfl rfl rfl rfl (Or.inl rfl) (by decide) (by decide)
    (by decide) (by decide) (by decide) rfl

end Grafana
